import Mathlib

/-!
Verification development for the traffic-monitor repository (Go).

The Go sources are shallowly embedded as pure Lean functions.  Go `int64`
fields hold byte counts and ports that never approach the 64-bit range in
any statement below, so they are modelled as `Int`; the wall-clock month
tag returned by `currentMonth()` (`time.Now().Format("2006-01")`) is passed
to each operation as an explicit `month : String` argument.  Mutation of a
`*ProxyStats` in place becomes a function returning the updated record.
-/

namespace TrafficMonitor

/-- Embedding of `stats.ProxyStats` (part_001, lines 13-24): the per-proxy
byte-accounting record with its JSON-tagged fields. -/
structure ProxyStats where
  Name            : String
  Protocol        : String
  ListenPort      : Int
  TargetPort      : Int
  TotalUpload     : Int
  TotalDownload   : Int
  MonthlyUpload   : Int
  MonthlyDownload : Int
  CurrentMonth    : String
  Limit           : Int
  deriving DecidableEq, Repr

/-- Embedding of `(*ProxyStats).checkMonthReset` (part_001, lines 105-112):
if the stored month tag differs from the wall-clock tag `month`, zero both
monthly counters and update the tag; otherwise leave the record unchanged. -/
def checkMonthReset (month : String) (s : ProxyStats) : ProxyStats :=
  if s.CurrentMonth ≠ month then
    { s with MonthlyUpload := 0, MonthlyDownload := 0, CurrentMonth := month }
  else s

/-- Embedding of `(*ProxyStats).AddUpload` (part_001, lines 93-97): run the
month-reset check, then add `n` to both the total and the monthly upload
counters. -/
def AddUpload (month : String) (n : Int) (s : ProxyStats) : ProxyStats :=
  let s := checkMonthReset month s
  { s with TotalUpload := s.TotalUpload + n, MonthlyUpload := s.MonthlyUpload + n }

/-- Embedding of `(*ProxyStats).AddDownload` (part_001, lines 99-103). -/
def AddDownload (month : String) (n : Int) (s : ProxyStats) : ProxyStats :=
  let s := checkMonthReset month s
  { s with TotalDownload := s.TotalDownload + n, MonthlyDownload := s.MonthlyDownload + n }

/-- Embedding of `(*ProxyStats).IsLimitExceeded` (part_001, lines 114-120):
`Limit <= 0` means unlimited, otherwise compare the sum of the two total
counters against the limit with `>=`. -/
def IsLimitExceeded (s : ProxyStats) : Bool :=
  if s.Limit ≤ 0 then false
  else decide (s.Limit ≤ s.TotalUpload + s.TotalDownload)

/-- A zero-initialized counter, as Go's `&ProxyStats{...}` literal leaves
every field not mentioned at its zero value (part_001, lines 47-54). -/
def mkStats (name protocol : String) (listenPort targetPort : Int)
    (month : String) (limit : Int) : ProxyStats :=
  { Name := name, Protocol := protocol, ListenPort := listenPort,
    TargetPort := targetPort, TotalUpload := 0, TotalDownload := 0,
    MonthlyUpload := 0, MonthlyDownload := 0, CurrentMonth := month,
    Limit := limit }

/-- The counter invariant of the spec: each total dominates its monthly
counter. -/
def counterInv (s : ProxyStats) : Prop :=
  s.MonthlyUpload ≤ s.TotalUpload ∧ s.MonthlyDownload ≤ s.TotalDownload

instance (s : ProxyStats) : Decidable (counterInv s) := by
  unfold counterInv; infer_instance

/-- A concrete counter with pending month rollover, used as a test value. -/
def sampleA : ProxyStats :=
  { Name := "p", Protocol := "tcp", ListenPort := 1, TargetPort := 2,
    TotalUpload := 700, TotalDownload := 900, MonthlyUpload := 700,
    MonthlyDownload := 900, CurrentMonth := "2024-11", Limit := 0 }

/-- A concrete counter inside its month, used as a test value. -/
def sampleB : ProxyStats :=
  { Name := "q", Protocol := "udp", ListenPort := 5, TargetPort := 6,
    TotalUpload := 10, TotalDownload := 20, MonthlyUpload := 3,
    MonthlyDownload := 4, CurrentMonth := "2025-01", Limit := 7 }

end TrafficMonitor

namespace TrafficMonitor

/-- Claim C1: starting from a zero-initialized Counter whose CurrentMonth is
"2024-11", AddUpload(500) under wall-clock month "2024-11" followed by
AddUpload(300) under wall-clock month "2024-12" yields TotalUpload = 800,
MonthlyUpload = 300 and CurrentMonth = "2024-12": the rollover embedded in
the add zeroes the monthly counters and retags the month before the
increment lands. -/
theorem addUpload_month_rollover :
    (AddUpload "2024-12" 300
      (AddUpload "2024-11" 500
        (mkStats "p" "tcp" 9001 9002 "2024-11" 0))).TotalUpload = 800 ∧
    (AddUpload "2024-12" 300
      (AddUpload "2024-11" 500
        (mkStats "p" "tcp" 9001 9002 "2024-11" 0))).MonthlyUpload = 300 ∧
    (AddUpload "2024-12" 300
      (AddUpload "2024-11" 500
        (mkStats "p" "tcp" 9001 9002 "2024-11" 0))).CurrentMonth = "2024-12" := by
  refine ⟨?_, ?_, ?_⟩ <;> rfl

/-- Claim C2: the invariant TotalUpload ≥ MonthlyUpload ∧ TotalDownload ≥
MonthlyDownload is preserved by AddUpload and AddDownload with n ≥ 0 within
a month, and checkMonthReset on a month change zeroes both monthly counters
while leaving both totals unchanged, re-establishing the invariant (the
totals being byte counts, hence nonnegative). -/
theorem counterInv_preserved (s : ProxyStats) (n : Int) (month : String)
    (hn : 0 ≤ n) :
    (month = s.CurrentMonth → counterInv s →
      counterInv (AddUpload month n s) ∧ counterInv (AddDownload month n s)) ∧
    (month ≠ s.CurrentMonth →
      (checkMonthReset month s).MonthlyUpload = 0 ∧
      (checkMonthReset month s).MonthlyDownload = 0 ∧
      (checkMonthReset month s).TotalUpload = s.TotalUpload ∧
      (checkMonthReset month s).TotalDownload = s.TotalDownload ∧
      (0 ≤ s.TotalUpload → 0 ≤ s.TotalDownload →
        counterInv (checkMonthReset month s))) := by
  constructor
  · intro hm hinv
    have hred : checkMonthReset month s = s := by
      unfold checkMonthReset
      rw [if_neg (by simp [hm])]
    have hup : AddUpload month n s =
        { s with TotalUpload := s.TotalUpload + n,
                 MonthlyUpload := s.MonthlyUpload + n } := by
      unfold AddUpload
      rw [hred]
    have hdn : AddDownload month n s =
        { s with TotalDownload := s.TotalDownload + n,
                 MonthlyDownload := s.MonthlyDownload + n } := by
      unfold AddDownload
      rw [hred]
    rw [hup, hdn]
    exact ⟨⟨add_le_add_right hinv.1 n, hinv.2⟩,
           ⟨hinv.1, add_le_add_right hinv.2 n⟩⟩
  · intro hm
    have hms : s.CurrentMonth ≠ month := fun h => hm h.symm
    have hr : checkMonthReset month s =
        { s with MonthlyUpload := 0, MonthlyDownload := 0,
                 CurrentMonth := month } := by
      unfold checkMonthReset
      rw [if_pos hms]
    rw [hr]
    exact ⟨rfl, rfl, rfl, rfl, fun h1 h2 => ⟨h1, h2⟩⟩

/-- Witness for C2 at a concrete counter with a month change pending. -/
theorem counterInv_preserved_witness :
    (checkMonthReset "2024-12" sampleA).MonthlyUpload = 0 ∧
    (checkMonthReset "2024-12" sampleA).TotalUpload = 700 ∧
    counterInv (checkMonthReset "2024-12" sampleA) := by
  have h := (counterInv_preserved sampleA 0 "2024-12" (by decide)).2 (by decide)
  exact ⟨h.1, h.2.2.1, h.2.2.2.2 (by decide) (by decide)⟩

/-- Claim C5: IsLimitExceeded returns true iff Limit > 0 and
TotalUpload + TotalDownload ≥ Limit; a limit ≤ 0 means unlimited, and the
comparison is ≥, so equality already trips the limit. -/
theorem isLimitExceeded_iff (s : ProxyStats) :
    IsLimitExceeded s = true ↔
      0 < s.Limit ∧ s.Limit ≤ s.TotalUpload + s.TotalDownload := by
  unfold IsLimitExceeded
  by_cases h : s.Limit ≤ 0
  · rw [if_pos h]
    constructor
    · intro hh
      exact absurd hh (by simp)
    · rintro ⟨h1, h2⟩
      exact absurd h1 (by omega)
  · rw [if_neg h]
    simp only [decide_eq_true_eq]
    constructor
    · intro hh
      exact ⟨by omega, hh⟩
    · exact fun hh => hh.2

/-- Claim C10: frame property of the increments.  When the wall-clock month
equals the stored CurrentMonth, AddUpload n changes only TotalUpload and
MonthlyUpload (each by exactly n) and leaves every other field unchanged;
symmetrically for AddDownload. -/
theorem add_frame (s : ProxyStats) (n : Int) (month : String)
    (hm : month = s.CurrentMonth) :
    (AddUpload month n s).TotalUpload = s.TotalUpload + n ∧
    (AddUpload month n s).MonthlyUpload = s.MonthlyUpload + n ∧
    (AddUpload month n s).TotalDownload = s.TotalDownload ∧
    (AddUpload month n s).MonthlyDownload = s.MonthlyDownload ∧
    (AddUpload month n s).Name = s.Name ∧
    (AddUpload month n s).Protocol = s.Protocol ∧
    (AddUpload month n s).ListenPort = s.ListenPort ∧
    (AddUpload month n s).TargetPort = s.TargetPort ∧
    (AddUpload month n s).Limit = s.Limit ∧
    (AddUpload month n s).CurrentMonth = s.CurrentMonth ∧
    (AddDownload month n s).TotalDownload = s.TotalDownload + n ∧
    (AddDownload month n s).MonthlyDownload = s.MonthlyDownload + n ∧
    (AddDownload month n s).TotalUpload = s.TotalUpload ∧
    (AddDownload month n s).MonthlyUpload = s.MonthlyUpload ∧
    (AddDownload month n s).Name = s.Name ∧
    (AddDownload month n s).Protocol = s.Protocol ∧
    (AddDownload month n s).ListenPort = s.ListenPort ∧
    (AddDownload month n s).TargetPort = s.TargetPort ∧
    (AddDownload month n s).Limit = s.Limit ∧
    (AddDownload month n s).CurrentMonth = s.CurrentMonth := by
  have hred : checkMonthReset month s = s := by
    unfold checkMonthReset
    rw [if_neg (by simp [hm])]
  have hup : AddUpload month n s =
      { s with TotalUpload := s.TotalUpload + n,
               MonthlyUpload := s.MonthlyUpload + n } := by
    unfold AddUpload
    rw [hred]
  have hdn : AddDownload month n s =
      { s with TotalDownload := s.TotalDownload + n,
               MonthlyDownload := s.MonthlyDownload + n } := by
    unfold AddDownload
    rw [hred]
  rw [hup, hdn]
  exact ⟨rfl, rfl, rfl, rfl, rfl, rfl, rfl, rfl, rfl, rfl,
         rfl, rfl, rfl, rfl, rfl, rfl, rfl, rfl, rfl, rfl⟩

/-- Witness for C10 at a concrete in-month increment. -/
theorem add_frame_witness :
    (AddUpload "2025-01" 5 sampleB).TotalUpload = sampleB.TotalUpload + 5 ∧
    (AddUpload "2025-01" 5 sampleB).TotalDownload = sampleB.TotalDownload := by
  have h := add_frame sampleB 5 "2025-01" rfl
  exact ⟨h.1, h.2.2.1⟩

/-! ### Registry (`stats.StatsManager`)

Go's `map[string]*ProxyStats` has unique keys; it is embedded as an
association list, and in-place mutation of a looked-up `*ProxyStats`
becomes an update of the entry. -/

/-- The name → Counter mapping held by `StatsManager` (part_001, line 28). -/
abbrev Registry := List (String × ProxyStats)

/-- Replace the entry for `name` (the functional image of mutating the
`*ProxyStats` stored in the Go map). -/
def updateEntry (name : String) (s : ProxyStats) : Registry → Registry
  | [] => []
  | (k, v) :: rest =>
      if k = name then (k, s) :: rest else (k, v) :: updateEntry name s rest

/-- Embedding of `(*StatsManager).Register` (part_001, lines 37-57): if
`name` exists, only `Limit` is overwritten on the existing counter
(`s.Limit = limit`) and that counter is returned; otherwise a fresh
zero-initialized counter tagged with the wall-clock month is inserted. -/
def Register (month name protocol : String) (listenPort targetPort limit : Int)
    (m : Registry) : Registry × ProxyStats :=
  match m.lookup name with
  | some s =>
      let s' := { s with Limit := limit }
      (updateEntry name s' m, s')
  | none =>
      let s := mkStats name protocol listenPort targetPort month limit
      ((name, s) :: m, s)

theorem lookup_updateEntry (name : String) (s' : ProxyStats) (m : Registry)
    (h : (m.lookup name).isSome) :
    (updateEntry name s' m).lookup name = some s' := by
  induction m with
  | nil => simp [List.lookup] at h
  | cons kv rest ih =>
      obtain ⟨k, v⟩ := kv
      by_cases hk : k = name
      · subst hk
        simp [updateEntry, List.lookup]
      · have hk' : ¬ (name == k) = true := by
          simp [BEq.beq]
          exact fun hc => hk hc.symm
        simp only [List.lookup, hk'] at h
        simp only [updateEntry, if_neg hk, List.lookup, hk']
        simpa using ih (by simpa using h)

/-- A registry with one pre-existing counter, used as a test value. -/
def regC4 : Registry := [("a", sampleA)]

/-- Counterexample to C4 as stated: re-registering name "a" (present in
`regC4` with protocol "tcp" and listen port 1) under protocol "udp" and
listen port 3 returns a counter whose Protocol is still "tcp" and whose
ListenPort is still 1 — the code updates only Limit, not the protocol or
the port fields. -/
theorem register_counterexample :
    (Register "2024-01" "a" "udp" 3 4 5 regC4).2.Protocol = "tcp" ∧
    (Register "2024-01" "a" "udp" 3 4 5 regC4).2.ListenPort = 1 ∧
    (Register "2024-01" "a" "udp" 3 4 5 regC4).2.Limit = 5 ∧
    "tcp" ≠ "udp" ∧ (1 : Int) ≠ 3 := by
  refine ⟨rfl, rfl, rfl, by decide, by decide⟩

/-- Claim C4 (amended): re-registering an existing name preserves all four
byte counters, the name, the protocol, both port fields and the month tag,
and updates only Limit to the newly supplied value, storing and returning
that counter; registering an absent name inserts and returns a new
zero-initialized counter whose CurrentMonth is the current month tag. -/
theorem register_spec (month name protocol : String)
    (lp tp limit : Int) (m : Registry) :
    (∀ s, m.lookup name = some s →
      (Register month name protocol lp tp limit m).2.Name = s.Name ∧
      (Register month name protocol lp tp limit m).2.Protocol = s.Protocol ∧
      (Register month name protocol lp tp limit m).2.ListenPort = s.ListenPort ∧
      (Register month name protocol lp tp limit m).2.TargetPort = s.TargetPort ∧
      (Register month name protocol lp tp limit m).2.TotalUpload = s.TotalUpload ∧
      (Register month name protocol lp tp limit m).2.TotalDownload = s.TotalDownload ∧
      (Register month name protocol lp tp limit m).2.MonthlyUpload = s.MonthlyUpload ∧
      (Register month name protocol lp tp limit m).2.MonthlyDownload = s.MonthlyDownload ∧
      (Register month name protocol lp tp limit m).2.CurrentMonth = s.CurrentMonth ∧
      (Register month name protocol lp tp limit m).2.Limit = limit ∧
      (Register month name protocol lp tp limit m).1.lookup name =
        some (Register month name protocol lp tp limit m).2) ∧
    (m.lookup name = none →
      (Register month name protocol lp tp limit m).2 =
        mkStats name protocol lp tp month limit ∧
      (Register month name protocol lp tp limit m).1 =
        (name, mkStats name protocol lp tp month limit) :: m) := by
  constructor
  · intro s hs
    have hr : Register month name protocol lp tp limit m =
        (updateEntry name { s with Limit := limit } m,
         { s with Limit := limit }) := by
      unfold Register
      rw [hs]
    rw [hr]
    refine ⟨rfl, rfl, rfl, rfl, rfl, rfl, rfl, rfl, rfl, rfl, ?_⟩
    exact lookup_updateEntry name _ m (by simp [hs])
  · intro hs
    have hr : Register month name protocol lp tp limit m =
        ((name, mkStats name protocol lp tp month limit) :: m,
         mkStats name protocol lp tp month limit) := by
      unfold Register
      rw [hs]
    rw [hr]
    exact ⟨rfl, rfl⟩

/-- Witness for C4's amended theorem on `regC4`. -/
theorem register_spec_witness :
    (Register "2024-01" "a" "udp" 3 4 5 regC4).2.Protocol = sampleA.Protocol ∧
    (Register "2024-01" "a" "udp" 3 4 5 regC4).2.TotalUpload = sampleA.TotalUpload ∧
    (Register "2024-01" "a" "udp" 3 4 5 regC4).2.Limit = 5 := by
  have h := (register_spec "2024-01" "a" "udp" 3 4 5 regC4).1 sampleA (by rfl)
  exact ⟨h.2.1, h.2.2.2.2.1, h.2.2.2.2.2.2.2.2.2.1⟩

/-! ### TCP relay limit gate (`proxy.TCPProxy.handleConn`) -/

/-- Outcome of one accepted TCP connection. -/
inductive ConnResult
  | rejected
  | dialFailed
  | relayed
  deriving DecidableEq, Repr

/-- Embedding of the control flow of `(*TCPProxy).handleConn` (tcp.go,
lines 87-120): the limit gate runs first and returns before the upstream
dial; a failed dial returns before any copy; otherwise the two copy
goroutines transform the counter (abstracted here as `relay`, an arbitrary
function of the counter). -/
def handleConn (s : ProxyStats) (dialOk : Bool)
    (relay : ProxyStats → ProxyStats) : ConnResult × ProxyStats :=
  if IsLimitExceeded s then (.rejected, s)
  else if dialOk then (.relayed, relay s)
  else (.dialFailed, s)

/-- Claim C6: if IsLimitExceeded holds when the handler starts, the
connection is rejected, the upstream dial is never reached (the outcome is
`rejected` whatever `dialOk` would have been) and no bytes are attributed
(the counter is returned unchanged, whatever the relay would have done). -/
theorem handleConn_limit_gate (s : ProxyStats) (dialOk : Bool)
    (relay : ProxyStats → ProxyStats) (h : IsLimitExceeded s = true) :
    handleConn s dialOk relay = (ConnResult.rejected, s) := by
  simp [handleConn, h]

/-- A capped counter whose totals (600 + 600) already meet the 1024-byte
limit, as in scenario S2. -/
def sampleCapped : ProxyStats :=
  { Name := "capped", Protocol := "tcp", ListenPort := 19001,
    TargetPort := 19002, TotalUpload := 600, TotalDownload := 600,
    MonthlyUpload := 600, MonthlyDownload := 600,
    CurrentMonth := "2024-11", Limit := 1024 }

/-- Witness for C6 on the S2 counter. -/
theorem handleConn_limit_gate_witness :
    handleConn sampleCapped true (AddUpload "2024-11" 50) =
      (ConnResult.rejected, sampleCapped) :=
  handleConn_limit_gate sampleCapped true (AddUpload "2024-11" 50) (by decide)

/-! ### Persistence (`stats.Persistence`)

`Save` marshals the registry snapshot to JSON and `Load` unmarshals it
back (part_000).  The JSON text is embedded at the level of JSON values:
a value is a string, a number or an object.  `encoding/json` marshals the
struct's tagged fields in declaration order and round-trips `int64` and
`string` fields exactly, and unmarshalling fills a zero value field by
field from the object's entries, ignoring unknown keys. -/

/-- JSON values, as far as the state file format needs them. -/
inductive JsonV
  | str (s : String)
  | num (n : Int)
  | obj (fields : List (String × JsonV))
  deriving Repr

/-- Marshalling of one `ProxyStats` under its `json:"..."` tags
(part_001, lines 13-24), fields in struct declaration order. -/
def encodeStats (s : ProxyStats) : JsonV :=
  .obj [("name", .str s.Name), ("protocol", .str s.Protocol),
        ("listen_port", .num s.ListenPort), ("target_port", .num s.TargetPort),
        ("total_upload", .num s.TotalUpload),
        ("total_download", .num s.TotalDownload),
        ("monthly_upload", .num s.MonthlyUpload),
        ("monthly_download", .num s.MonthlyDownload),
        ("current_month", .str s.CurrentMonth), ("limit", .num s.Limit)]

/-- One unmarshalling step: set the field named by the JSON key on the
partially filled struct; keys that match no tag are ignored.  The string
fields take JSON strings and the int64 fields take JSON numbers; the tags
are pairwise distinct, so dispatch order is immaterial. -/
def setField (s : ProxyStats) (kv : String × JsonV) : ProxyStats :=
  match kv with
  | (k, .str x) =>
      if k = "name" then { s with Name := x }
      else if k = "protocol" then { s with Protocol := x }
      else if k = "current_month" then { s with CurrentMonth := x }
      else s
  | (k, .num x) =>
      if k = "listen_port" then { s with ListenPort := x }
      else if k = "target_port" then { s with TargetPort := x }
      else if k = "total_upload" then { s with TotalUpload := x }
      else if k = "total_download" then { s with TotalDownload := x }
      else if k = "monthly_upload" then { s with MonthlyUpload := x }
      else if k = "monthly_download" then { s with MonthlyDownload := x }
      else if k = "limit" then { s with Limit := x }
      else s
  | _ => s

/-- The zero value of `ProxyStats`, the starting point of unmarshalling. -/
def zeroStats : ProxyStats :=
  mkStats "" "" 0 0 "" 0

/-- Unmarshalling of one `ProxyStats`: a JSON object fills the zero value
field by field; any other JSON shape is an unmarshal error. -/
def decodeStats : JsonV → Option ProxyStats
  | .obj fs => some (fs.foldl setField zeroStats)
  | _ => none

/-- Unmarshalling of the entries of the state-file object into registry
entries; an entry whose value fails to decode fails the whole unmarshal. -/
def decodeEntries : List (String × JsonV) → Option Registry
  | [] => some []
  | (k, v) :: rest =>
      match decodeStats v, decodeEntries rest with
      | some s, some m => some ((k, s) :: m)
      | _, _ => none

/-- Unmarshalling of the state file into a `map[string]*ProxyStats`
(part_000, lines 35-38): the top level must be a JSON object. -/
def decodeRegistry : JsonV → Option Registry
  | .obj fs => decodeEntries fs
  | _ => none

/-- Embedding of `(*Persistence).Save` (part_000, lines 45-62) at the
level of the file content it durably writes: the marshalled registry
snapshot. -/
def Save (m : Registry) : JsonV :=
  .obj (m.map fun kv => (kv.1, encodeStats kv.2))

/-- What `os.ReadFile` can yield in `Load`: no file, a failed read, or the
file's content (already as a JSON value when it is well-formed JSON;
content that is not JSON at all is subsumed by a value that fails to
decode, both being `json.Unmarshal` errors). -/
inductive FileState
  | missing
  | readError
  | present (j : JsonV)

/-- Result tag of `Load`. -/
inductive LoadResult
  | ok
  | fileError
  | parseError
  deriving DecidableEq, Repr

/-- Embedding of `(*Persistence).Load` (part_000, lines 26-43): a missing
file is success with the registry untouched, a read or unmarshal error
returns the error with the registry untouched, and only a successful
parse reaches `SetStats`, which replaces the whole mapping. -/
def Load (f : FileState) (reg : Registry) : LoadResult × Registry :=
  match f with
  | .missing => (.ok, reg)
  | .readError => (.fileError, reg)
  | .present j =>
      match decodeRegistry j with
      | none => (.parseError, reg)
      | some m => (.ok, m)

theorem decodeStats_encodeStats (s : ProxyStats) :
    decodeStats (encodeStats s) = some s := by
  simp [encodeStats, decodeStats, setField, zeroStats, mkStats]

theorem decodeRegistry_save (m : Registry) :
    decodeRegistry (Save m) = some m := by
  induction m with
  | nil => rfl
  | cons kv rest ih =>
      obtain ⟨k, v⟩ := kv
      simp only [Save, List.map_cons, decodeRegistry] at ih ⊢
      simp only [decodeEntries, decodeStats_encodeStats, ih]

/-- Claim C3: persistence round-trips — for every registry snapshot,
loading the exact file content written by Save succeeds and reproduces
every entry, hence every Counter field, exactly, whatever registry was in
place before the load. -/
theorem save_load_roundtrip (m : Registry) (reg : Registry) :
    Load (.present (Save m)) reg = (LoadResult.ok, m) := by
  simp only [Load, decodeRegistry_save m]

/-- Claim C7: Load error handling and atomicity — a missing file succeeds
and leaves the registry unchanged, an existing file that fails to
unmarshal returns an error and leaves the registry unchanged (as does a
read error), and the registry is replaced only by a load that returns
success on a file whose content parses. -/
theorem load_error_handling (reg : Registry) (j : JsonV)
    (hbad : decodeRegistry j = none) :
    Load .missing reg = (LoadResult.ok, reg) ∧
    Load (.present j) reg = (LoadResult.parseError, reg) ∧
    Load .readError reg = (LoadResult.fileError, reg) ∧
    (∀ f : FileState, (Load f reg).2 ≠ reg →
      ∃ j' m, f = .present j' ∧ decodeRegistry j' = some m ∧
        Load f reg = (LoadResult.ok, m)) := by
  refine ⟨rfl, by simp only [Load, hbad], rfl, ?_⟩
  intro f hne
  cases f with
  | missing => exact absurd rfl hne
  | readError => exact absurd rfl hne
  | present j' =>
      cases hj : decodeRegistry j' with
      | none =>
          exfalso
          apply hne
          simp only [Load, hj]
      | some m =>
          refine ⟨j', m, rfl, hj, ?_⟩
          simp only [Load, hj]

/-- Witness for C7: a corrupt file (a bare JSON string cannot unmarshal
into the stats map) is rejected and leaves a one-entry registry intact,
and the replacement branch fires on a well-formed file. -/
theorem load_error_handling_witness :
    Load .missing regC4 = (LoadResult.ok, regC4) ∧
    Load (.present (.str "corrupt")) regC4 = (LoadResult.parseError, regC4) ∧
    (∃ j' m, (FileState.present (Save [])) = FileState.present j' ∧
      decodeRegistry j' = some m ∧
      Load (.present (Save [])) regC4 = (LoadResult.ok, m)) := by
  have h := load_error_handling regC4 (.str "corrupt") rfl
  refine ⟨h.1, h.2.1, ?_⟩
  exact (load_error_handling regC4 (.str "corrupt") rfl).2.2.2
    (.present (Save [])) (by decide)

/-! ### TCP copy loop (`proxy.TCPProxy.copy`)

`copy` (tcp.go, lines 122-149) repeatedly reads from the source socket and
writes to the destination socket.  A run of the loop is driven by the
sequence of results the source's `Read` returns (bytes read and error, in
order) and the sequence of results the destination's `Write` returns, one
per read that produced bytes.  The read errors the code distinguishes are
nil, `io.EOF` and anything else. -/

/-- Result classification of one `src.Read`. -/
inductive RErr
  | ok
  | eof
  | other
  deriving DecidableEq, Repr

/-- Per-iteration counter attribution (tcp.go, lines 131-137): exactly the
`written` result of the destination write, and only when it is positive,
is added through AddUpload or AddDownload according to the direction. -/
def attrWritten (month : String) (isUpload : Bool) (written : Nat)
    (s : ProxyStats) : ProxyStats :=
  if 0 < written then
    (if isUpload then AddUpload month (written : Int) s
     else AddDownload month (written : Int) s)
  else s

/-- Embedding of `(*TCPProxy).copy` (tcp.go, lines 122-149).  `reads` is
the sequence of `(n, readErr)` results of `src.Read`; `writes` is the
sequence of `(written, writeErr)` results of `dst.Write`, consumed one per
read with `n > 0` (socket writes always return a result, so `writes` is as
long as needed on any real run; an exhausted list ends the run).  A write
error returns after the attribution; a read error, EOF or not, returns
without retry. -/
def copy (month : String) (isUpload : Bool) :
    List (Nat × RErr) → List (Nat × Bool) → ProxyStats → ProxyStats
  | [], _, s => s
  | (n, rerr) :: rs, ws, s =>
      if 0 < n then
        match ws with
        | [] => s
        | (written, werr) :: ws2 =>
            let s2 := attrWritten month isUpload written s
            if werr then s2
            else
              match rerr with
              | .ok => copy month isUpload rs ws2 s2
              | _ => s2
      else
        match rerr with
        | .ok => copy month isUpload rs ws s
        | _ => s

/-- Claim C8: attribution in the copy loop uses the bytes the destination
reported written, never the bytes read.  For a read of n > 0 bytes whose
write returns `written`: with no errors the loop attributes exactly
`written` (and nothing when written = 0) and continues; a write error
returns immediately after that same attribution, whatever the read error
flag and the rest of both streams; a non-EOF read error (like EOF)
returns after the attribution of the successful write without retry, and
with n = 0 returns with no attribution at all. -/
theorem copy_attribution (month : String) (isUpload : Bool)
    (n written : Nat) (rerr : RErr) (rs : List (Nat × RErr))
    (ws : List (Nat × Bool)) (s : ProxyStats) (hn : 0 < n) :
    copy month isUpload ((n, RErr.ok) :: rs) ((written, false) :: ws) s =
      copy month isUpload rs ws (attrWritten month isUpload written s) ∧
    copy month isUpload ((n, rerr) :: rs) ((written, true) :: ws) s =
      attrWritten month isUpload written s ∧
    copy month isUpload ((n, RErr.other) :: rs) ((written, false) :: ws) s =
      attrWritten month isUpload written s ∧
    copy month isUpload ((n, RErr.eof) :: rs) ((written, false) :: ws) s =
      attrWritten month isUpload written s ∧
    copy month isUpload ((0, RErr.other) :: rs) ws s = s ∧
    copy month isUpload ((0, RErr.eof) :: rs) ws s = s ∧
    attrWritten month isUpload 0 s = s := by
  refine ⟨?_, ?_, ?_, ?_, rfl, rfl, rfl⟩ <;>
    · show (if 0 < n then _ else _) = _
      rw [if_pos hn]
      cases rerr <;> rfl

/-- Witness for C8: a short write — 3 bytes read, 2 reported written, then
a write error — attributes exactly the 2 written bytes to TotalUpload,
not the 3 read. -/
theorem copy_attribution_witness :
    copy "2025-01" true [(3, RErr.ok)] [(2, true)] sampleB =
      AddUpload "2025-01" 2 sampleB ∧
    (AddUpload "2025-01" 2 sampleB).TotalUpload = 12 := by
  have h := copy_attribution "2025-01" true 3 2 RErr.ok [] [] sampleB
    (by decide)
  exact ⟨h.2.1, by decide⟩

/-! ### Size parsing (`stats.ParseBytes`)

`ParseBytes` (part_001, lines 152-194) early-returns 0 on the exact
inputs `""` and `"0"`, upper-cases and trims the string, matches it
against the anchored regular expression
`(\d+(\.\d+)?)\s*(B|KB|MB|GB|TB)?`, converts the captured number with
`strconv.ParseFloat` (64-bit), multiplies by the unit's binary
multiplier with float64 arithmetic, and converts the result to int64.
Strings are handled as `List Char`.

The float64 arithmetic is modelled bit-exactly with integer arithmetic:
`strconv.ParseFloat` is documented to return the IEEE-754 binary64
correctly-rounded value (round to nearest, ties to even) of the decimal,
with `ErrRange` on overflow — the code turns that error into a parse
failure — and 0 without error on full underflow.  The rounded float is
represented as a mantissa/exponent pair `(m, ex)` denoting `m * 2 ^ ex`
with `m < 2 ^ 53`.  The unit multipliers are powers of two, so the
float64 multiplication scales the exponent exactly, overflowing to +Inf
only past `2 ^ 1024`.  `int64(value)` truncates toward zero; for values
out of int64 range (including +Inf) the Go spec makes the conversion
implementation-specific, and gc on amd64/arm64 yields math.MinInt64,
which is what the model returns on that branch (no theorem below relies
on it). -/

/-- ASCII digit, the RE2 class `\d`. -/
def isDigitC (c : Char) : Bool := '0' ≤ c && c ≤ '9'

/-- The RE2 class `\s`, namely tab, newline, form feed, carriage return
and space. -/
def reSpace (c : Char) : Bool :=
  c == ' ' || c == '\t' || c == '\n' || c == '\x0c' || c == '\r'

/-- `unicode.IsSpace`, the class trimmed by `strings.TrimSpace`: ASCII
whitespace, NEL, NBSP and the Unicode space separators. -/
def goIsSpace (c : Char) : Bool :=
  c == ' ' || c == '\t' || c == '\n' || c == '\x0b' || c == '\x0c' ||
  c == '\r' || c == '\x85' || c == '\xa0' || c == ' ' ||
  (' ' ≤ c && c ≤ ' ') || c == ' ' || c == ' ' ||
  c == ' ' || c == ' ' || c == '　'

/-- `strings.TrimSpace` on a character list. -/
def trimGo (l : List Char) : List Char :=
  ((l.dropWhile goIsSpace).reverse.dropWhile goIsSpace).reverse

/-- `strings.ToUpper` per character.  Only the ASCII range matters here:
the grammar accepts ASCII only, and no simple Unicode upper-case mapping
lands on the unit letters B, K, M, G or T. -/
def goUpperChar (c : Char) : Char :=
  if 'a' ≤ c && c ≤ 'z' then Char.ofNat (c.toNat - 32) else c

/-- Value of a digit string read in base 10. -/
def digitsToNat (l : List Char) : Nat :=
  l.foldl (fun a c => 10 * a + (c.toNat - 48)) 0

/-- The unit alternatives of the regular expression's third group, with
their binary multipliers (part_001, lines 175-191); `[]` is the absent
unit, which the code defaults to `B`. -/
def unitMult (u : List Char) : Option Nat :=
  if u = [] then some 1
  else if u = ['B'] then some 1
  else if u = ['K', 'B'] then some 1024
  else if u = ['M', 'B'] then some (1024 * 1024)
  else if u = ['G', 'B'] then some (1024 * 1024 * 1024)
  else if u = ['T', 'B'] then some (1024 * 1024 * 1024 * 1024)
  else none

/-- The `\s*` gap and the optional anchored unit after the number: skip
spaces, then the remainder must be exactly one of the unit alternatives
(or empty).  Yields the unit's multiplier. -/
def matchTail (r : List Char) : Option Nat :=
  unitMult (r.dropWhile reSpace)

/-- The anchored match of `^(\d+(\.\d+)?)\s*(B|KB|MB|GB|TB)?$`: a
nonempty digit run, an optional fraction introduced by a dot and made of
a nonempty digit run, spaces, and an optional unit ending the string.
Yields the integer digits, the fraction digits (empty when there is no
fraction) and the unit multiplier. -/
def matchSize (t : List Char) : Option (List Char × List Char × Nat) :=
  let d1 := t.takeWhile isDigitC
  let r1 := t.dropWhile isDigitC
  if d1 = [] then none
  else if r1.head? = some '.' then
    let r2 := r1.tail
    let f := r2.takeWhile isDigitC
    let r3 := r2.dropWhile isDigitC
    if f = [] then none
    else
      match matchTail r3 with
      | some mult => some (d1, f, mult)
      | none => none
  else
    match matchTail r1 with
    | some mult => some (d1, [], mult)
    | none => none

/-- Whether `2 ^ a ≤ n / 10 ^ k`, decided exactly in integers. -/
def twoPowLe (n k : Nat) (a : Int) : Bool :=
  if 0 ≤ a then decide (10 ^ k * 2 ^ a.toNat ≤ n)
  else decide (10 ^ k ≤ n * 2 ^ (-a).toNat)

/-- Floor base-2 logarithm by structural recursion on a fuel argument
(with early exit, so only logarithmically many steps are taken); any
fuel at least the logarithm gives the exact value. -/
def log2Fuel : Nat → Nat → Nat
  | 0, _ => 0
  | fuel + 1, n => if n ≤ 1 then 0 else log2Fuel fuel (n / 2) + 1

/-- Floor base-2 logarithm of a positive number (0 for 0 and 1); `n`
itself always suffices as fuel. -/
def log2Go (n : Nat) : Nat := log2Fuel n n

/-- The binary exponent `e` with `2 ^ e ≤ n / 10 ^ k < 2 ^ (e + 1)` for
`n > 0`: the floor base-2 logarithm of `n / 10 ^ k`, which always lies
within one of the difference of the operands' floor logarithms. -/
def expOf (n k : Nat) : Int :=
  let L : Int := (log2Go n : Int) - (log2Go (10 ^ k) : Int)
  if twoPowLe n k (L + 1) then L + 1
  else if twoPowLe n k L then L
  else L - 1

/-- `strconv.ParseFloat` of the decimal `n / 10 ^ k` (the digit string
the regular expression captured): the correctly-rounded binary64 value
as a pair `(m, ue)` denoting `m * 2 ^ ue`, with `none` for the overflow
`ErrRange`.  Rounding is to nearest, ties to even, at the ulp of the
result: `2 ^ (e - 52)` for normal results, `2 ^ (-1074)` for subnormal
ones; a mantissa carry to `2 ^ 53` moves up one exponent, and a final
exponent above 971 means the value exceeds the largest finite float64
(by more than half an ulp), the documented ErrRange condition. -/
def parseFloatGo (n k : Nat) : Option (Nat × Int) :=
  if n = 0 then some (0, 0)
  else
    let e := expOf n k
    let ue : Int := max (e - 52) (-1074)
    let N : Nat := if 0 ≤ ue then n else n * 2 ^ (-ue).toNat
    let D : Nat := if 0 ≤ ue then 10 ^ k * 2 ^ ue.toNat else 10 ^ k
    let m0 := N / D
    let r := N % D
    let m1 := if D < 2 * r ∨ (2 * r = D ∧ m0 % 2 = 1) then m0 + 1 else m0
    let m2 := if m1 = 2 ^ 53 then 2 ^ 52 else m1
    let ue2 := if m1 = 2 ^ 53 then ue + 1 else ue
    if 971 < ue2 then none else some (m2, ue2)

/-- The float64 multiplication by the power-of-two unit multiplier
followed by the `int64(value)` conversion: the product `m * mult * 2^ex`
is exact; in int64 range the conversion truncates toward zero (the value
is nonnegative, so floor); otherwise — a finite value at or above
`2 ^ 63`, or the +Inf the multiplication overflows to at `2 ^ 1024` —
the Go spec leaves the conversion implementation-specific and gc on
amd64/arm64 produces math.MinInt64. -/
def f64scaleTrunc (m : Nat) (ex : Int) (mult : Nat) : Int :=
  if 0 ≤ ex then
    let v : Nat := m * mult * 2 ^ ex.toNat
    if v < 2 ^ 63 then (v : Int) else -(2 ^ 63)
  else
    let v : Nat := m * mult / 2 ^ (-ex).toNat
    if v < 2 ^ 63 then (v : Int) else -(2 ^ 63)

/-- Embedding of `stats.ParseBytes` (part_001, lines 152-194): `""` and
`"0"` mean unlimited before any normalization; otherwise the upper-cased,
trimmed string must match the size grammar, the captured number goes
through the float64 pipeline (`parseFloatGo`, whose overflow error makes
`ParseBytes` return the error), is scaled by the unit multiplier and
converted to int64. -/
def ParseBytes (s : String) : Option Int :=
  if s = "" ∨ s = "0" then some 0
  else
    match matchSize (trimGo (s.data.map goUpperChar)) with
    | some (d1, f, mult) =>
        match parseFloatGo (digitsToNat (d1 ++ f)) f.length with
        | none => none
        | some (m, ex) => some (f64scaleTrunc m ex mult)
    | none => none

/-! The claim-side grammar: a decimal number, optionally fractional,
followed (possibly after whitespace) by one of the units `B`, `KB`, `MB`,
`GB`, `TB` or by nothing, meaning bytes. -/

/-- A nonempty all-digit run. -/
def IsDigits (l : List Char) : Prop :=
  l ≠ [] ∧ ∀ c ∈ l, isDigitC c = true

/-- The claim's unit table: the six alternatives (including the absent
unit, meaning bytes) and their binary 1024-based multipliers. -/
def UnitSpec (u : List Char) (mult : Nat) : Prop :=
  (u = [] ∧ mult = 1) ∨ (u = ['B'] ∧ mult = 1) ∨
  (u = ['K', 'B'] ∧ mult = 1024) ∨ (u = ['M', 'B'] ∧ mult = 1024 ^ 2) ∨
  (u = ['G', 'B'] ∧ mult = 1024 ^ 3) ∨ (u = ['T', 'B'] ∧ mult = 1024 ^ 4)

/-- Rendering of an optional fractional part: nothing, or a dot followed
by its digits. -/
def FracPart : Option (List Char) → List Char
  | none => []
  | some f => '.' :: f

/-- The digits of an optional fractional part. -/
def FracDigits : Option (List Char) → List Char
  | none => []
  | some f => f

/-- The claim's size grammar over an (already upper-cased and trimmed)
character list: integer digits `d1`, optional fraction `frac`, optional
whitespace, and an optional unit with multiplier `mult` ending the
string. -/
def SizeForm (t d1 : List Char) (frac : Option (List Char))
    (mult : Nat) : Prop :=
  ∃ (sp u : List Char),
    t = d1 ++ FracPart frac ++ sp ++ u ∧
    IsDigits d1 ∧
    (∀ f, frac = some f → IsDigits f) ∧
    (∀ c ∈ sp, reSpace c = true) ∧
    UnitSpec u mult

/-- The head of `l` (if any) falsifies `p`. -/
def HeadNot (p : Char → Bool) : List Char → Prop
  | [] => True
  | c :: _ => p c = false

theorem takeWhile_split (p : Char → Bool) (a b : List Char)
    (ha : ∀ c ∈ a, p c = true) (hb : HeadNot p b) :
    (a ++ b).takeWhile p = a ∧ (a ++ b).dropWhile p = b := by
  induction a with
  | nil =>
      simp only [List.nil_append]
      cases b with
      | nil => exact ⟨rfl, rfl⟩
      | cons c cs =>
          unfold HeadNot at hb
          rw [List.takeWhile_cons, List.dropWhile_cons, hb]
          simp
  | cons x xs ih =>
      have hx : p x = true := ha x (by simp)
      have ihr := ih fun c hc => ha c (by simp [hc])
      rw [List.cons_append, List.takeWhile_cons, List.dropWhile_cons, hx]
      simp [ihr.1, ihr.2]

theorem reSpace_not_digit {c : Char} (h : reSpace c = true) :
    isDigitC c = false := by
  simp only [reSpace, Bool.or_eq_true, beq_iff_eq] at h
  rcases h with (((h | h) | h) | h) | h <;> subst h <;> decide

theorem reSpace_ne_dot {c : Char} (h : reSpace c = true) : c ≠ '.' := by
  simp only [reSpace, Bool.or_eq_true, beq_iff_eq] at h
  rcases h with (((h | h) | h) | h) | h <;> subst h <;> decide

theorem unitSpec_headNot {u : List Char} {mult : Nat} (h : UnitSpec u mult) :
    HeadNot isDigitC u ∧ HeadNot reSpace u ∧ u.head? ≠ some '.' := by
  rcases h with ⟨h, _⟩ | ⟨h, _⟩ | ⟨h, _⟩ | ⟨h, _⟩ | ⟨h, _⟩ | ⟨h, _⟩ <;>
    subst h <;> exact ⟨by trivial, by trivial, by simp⟩

theorem unitMult_of_spec {u : List Char} {mult : Nat} (h : UnitSpec u mult) :
    unitMult u = some mult := by
  rcases h with ⟨h, hm⟩ | ⟨h, hm⟩ | ⟨h, hm⟩ | ⟨h, hm⟩ | ⟨h, hm⟩ | ⟨h, hm⟩ <;>
    subst h <;> subst hm <;> rfl

theorem spec_of_unitMult {u : List Char} {mult : Nat}
    (h : unitMult u = some mult) : UnitSpec u mult := by
  unfold unitMult at h
  split_ifs at h with h1 h2 h3 h4 h5 h6 <;>
    first
      | (cases h
         unfold UnitSpec
         tauto)
      | cases h

/-- `HeadNot isDigitC` for a space run followed by a unit. -/
theorem headNot_digit_spaceUnit {sp u : List Char} {mult : Nat}
    (hsp : ∀ c ∈ sp, reSpace c = true) (hu : UnitSpec u mult) :
    HeadNot isDigitC (sp ++ u) := by
  cases sp with
  | nil => exact (unitSpec_headNot hu).1
  | cons c cs =>
      exact reSpace_not_digit (hsp c (by simp))

theorem head_ne_dot_spaceUnit {sp u : List Char} {mult : Nat}
    (hsp : ∀ c ∈ sp, reSpace c = true) (hu : UnitSpec u mult) :
    (sp ++ u).head? ≠ some '.' := by
  cases sp with
  | nil => exact (unitSpec_headNot hu).2.2
  | cons c cs =>
      simp only [List.cons_append, List.head?_cons]
      intro hc
      exact reSpace_ne_dot (hsp c (by simp)) (by injection hc)

theorem matchTail_complete {sp u : List Char} {mult : Nat}
    (hsp : ∀ c ∈ sp, reSpace c = true) (hu : UnitSpec u mult) :
    matchTail (sp ++ u) = some mult := by
  have hdrop : (sp ++ u).dropWhile reSpace = u :=
    (takeWhile_split reSpace sp u hsp (unitSpec_headNot hu).2.1).2
  unfold matchTail
  rw [hdrop]
  exact unitMult_of_spec hu

theorem matchTail_sound {r : List Char} {mult : Nat}
    (h : matchTail r = some mult) :
    ∃ sp u, r = sp ++ u ∧ (∀ c ∈ sp, reSpace c = true) ∧
      UnitSpec u mult :=
  ⟨r.takeWhile reSpace, r.dropWhile reSpace,
    (List.takeWhile_append_dropWhile reSpace r).symm,
    fun c hc => List.mem_takeWhile_imp hc,
    spec_of_unitMult h⟩

theorem headNot_cons {p : Char → Bool} {c : Char} {l : List Char}
    (h : p c = false) : HeadNot p (c :: l) := h

theorem matchSize_complete {t d1 : List Char} {fr : Option (List Char)}
    {mult : Nat} (h : SizeForm t d1 fr mult) :
    matchSize t = some (d1, FracDigits fr, mult) := by
  obtain ⟨sp, u, ht, hd1, hfr, hsp, hu⟩ := h
  cases fr with
  | none =>
      have hsplit := takeWhile_split isDigitC d1 (sp ++ u) hd1.2
        (headNot_digit_spaceUnit hsp hu)
      have ht2 : t = d1 ++ (sp ++ u) := by
        simpa [FracPart, List.append_assoc] using ht
      unfold matchSize
      rw [ht2, hsplit.1, hsplit.2, if_neg hd1.1,
        if_neg (head_ne_dot_spaceUnit hsp hu), matchTail_complete hsp hu]
      rfl
  | some f =>
      have hf : IsDigits f := hfr f rfl
      have hsplit2 := takeWhile_split isDigitC f (sp ++ u) hf.2
        (headNot_digit_spaceUnit hsp hu)
      have hsplit1 := takeWhile_split isDigitC d1 ('.' :: (f ++ (sp ++ u)))
        hd1.2 (headNot_cons (by decide))
      have ht2 : t = d1 ++ ('.' :: (f ++ (sp ++ u))) := by
        simpa [FracPart, List.append_assoc] using ht
      unfold matchSize
      rw [ht2, hsplit1.1, hsplit1.2, if_neg hd1.1]
      simp only [List.head?_cons, List.tail_cons]
      rw [if_pos trivial, hsplit2.1, hsplit2.2, if_neg hf.1,
        matchTail_complete hsp hu]
      rfl

theorem matchSize_sound {t d1 f : List Char} {mult : Nat}
    (h : matchSize t = some (d1, f, mult)) :
    ∃ fr, FracDigits fr = f ∧ SizeForm t d1 fr mult := by
  unfold matchSize at h
  by_cases h0 : t.takeWhile isDigitC = []
  · rw [if_pos h0] at h
    cases h
  · rw [if_neg h0] at h
    have hd1 : IsDigits (t.takeWhile isDigitC) :=
      ⟨h0, fun c hc => List.mem_takeWhile_imp hc⟩
    by_cases hdot : (t.dropWhile isDigitC).head? = some '.'
    · rw [if_pos hdot] at h
      cases hr1 : t.dropWhile isDigitC with
      | nil => rw [hr1] at hdot; cases hdot
      | cons c r2 =>
          have hc : c = '.' := by
            rw [hr1] at hdot
            simpa using hdot
          subst hc
          rw [hr1] at h
          simp only [List.tail_cons] at h
          by_cases hf0 : r2.takeWhile isDigitC = []
          · rw [if_pos hf0] at h
            cases h
          · rw [if_neg hf0] at h
            cases hmt : matchTail (r2.dropWhile isDigitC) with
            | none => rw [hmt] at h; cases h
            | some mult2 =>
                rw [hmt] at h
                simp only [Option.some.injEq, Prod.mk.injEq] at h
                obtain ⟨hE1, hE2, hE3⟩ := h
                subst hE1
                subst hE2
                subst hE3
                obtain ⟨sp, u, hr3, hsp, hu⟩ := matchTail_sound hmt
                refine ⟨some (r2.takeWhile isDigitC), rfl, sp, u, ?_,
                  hd1, ?_, hsp, hu⟩
                · conv_lhs =>
                    rw [(List.takeWhile_append_dropWhile isDigitC t).symm,
                      hr1,
                      (List.takeWhile_append_dropWhile isDigitC r2).symm,
                      hr3]
                  simp [FracPart, List.append_assoc]
                · intro f2 hf2
                  injection hf2 with hf2
                  exact hf2 ▸
                    ⟨hf0, fun c hc => List.mem_takeWhile_imp hc⟩
    · rw [if_neg hdot] at h
      cases hmt : matchTail (t.dropWhile isDigitC) with
      | none => rw [hmt] at h; cases h
      | some mult2 =>
          rw [hmt] at h
          simp only [Option.some.injEq, Prod.mk.injEq] at h
          obtain ⟨hE1, hE2, hE3⟩ := h
          subst hE1
          subst hE2
          subst hE3
          obtain ⟨sp, u, hr1, hsp, hu⟩ := matchTail_sound hmt
          refine ⟨none, rfl, sp, u, ?_, hd1, ?_, hsp, hu⟩
          · conv_lhs =>
              rw [(List.takeWhile_append_dropWhile isDigitC t).symm, hr1]
            simp [FracPart, List.append_assoc]
          · intro f2 hf2
            cases hf2

/-- Counterexample to C9 as stated: "9007199254740993" (2^53 + 1) is in
the grammar with unit absent (multiplier 1), so the claim demands the
number itself, 9007199254740993; but strconv.ParseFloat rounds the
decimal ties-to-even to the float64 9007199254740992, and ParseBytes
returns 9007199254740992. -/
theorem parseBytes_float_counterexample :
    SizeForm (trimGo ("9007199254740993".data.map goUpperChar))
      "9007199254740993".data none 1 ∧
    digitsToNat "9007199254740993".data = 9007199254740993 ∧
    ParseBytes "9007199254740993" = some 9007199254740992 ∧
    (9007199254740992 : Int) ≠ 9007199254740993 := by
  refine ⟨⟨[], [], by decide, ⟨by decide, by decide⟩, ?_, ?_,
    Or.inl ⟨rfl, rfl⟩⟩, by decide, by decide, by decide⟩
  · intro f hf
    cases hf
  · intro c hc
    cases hc

/-- Claim C9 (amended): ParseBytes returns 0 for the exact inputs "" and
"0"; for every other input whose upper-cased, trimmed form fits the size
grammar — a decimal number, optionally fractional, optional whitespace,
then unit B, KB, MB, GB, TB or none (meaning bytes) — it returns the
float64 value of the number (the IEEE-754 binary64 correctly-rounded
value strconv.ParseFloat produces, its overflow error propagated as a
parse error) multiplied by the unit's binary 1024-based multiplier and
converted to int64; and it returns an error for every other input. -/
theorem parseBytes_spec :
    ParseBytes "" = some 0 ∧ ParseBytes "0" = some 0 ∧
    (∀ (s : String) (d1 : List Char) (fr : Option (List Char))
      (mult : Nat), s ≠ "" → s ≠ "0" →
      SizeForm (trimGo (s.data.map goUpperChar)) d1 fr mult →
      ParseBytes s =
        match parseFloatGo (digitsToNat (d1 ++ FracDigits fr))
            (FracDigits fr).length with
        | none => none
        | some (m, ex) => some (f64scaleTrunc m ex mult)) ∧
    (∀ s : String, s ≠ "" → s ≠ "0" →
      (¬ ∃ d1 fr mult, SizeForm (trimGo (s.data.map goUpperChar))
        d1 fr mult) →
      ParseBytes s = none) := by
  refine ⟨rfl, rfl, ?_, ?_⟩
  · intro s d1 fr mult h1 h2 hform
    have hcond : ¬ (s = "" ∨ s = "0") := by tauto
    unfold ParseBytes
    rw [if_neg hcond, matchSize_complete hform]
  · intro s h1 h2 hnone
    have hcond : ¬ (s = "" ∨ s = "0") := by tauto
    unfold ParseBytes
    rw [if_neg hcond]
    cases hm : matchSize (trimGo (s.data.map goUpperChar)) with
    | none => rfl
    | some trip =>
        obtain ⟨d1, f, mult⟩ := trip
        obtain ⟨fr, _, hform⟩ := matchSize_sound hm
        exact absurd ⟨d1, fr, mult, hform⟩ hnone

/-- Witness for C9's amended theorem on "1.5kb": 1.5 is exactly
representable in float64, and 1.5 * 1024 = 1536. -/
theorem parseBytes_spec_witness :
    ParseBytes "1.5kb" = some 1536 := by
  have hform : SizeForm (trimGo ("1.5kb".data.map goUpperChar))
      ['1'] (some ['5']) 1024 := by
    refine ⟨[], ['K', 'B'], by decide, ⟨by decide, by decide⟩, ?_,
      by decide, ?_⟩
    · intro f hf
      injection hf with hf
      exact hf ▸ ⟨by decide, by decide⟩
    · exact Or.inr (Or.inr (Or.inl ⟨rfl, rfl⟩))
  have h := parseBytes_spec.2.2.1 "1.5kb" ['1'] (some ['5']) 1024
    (by decide) (by decide) hform
  rw [h]
  decide

end TrafficMonitor
